import Mathlib

/-!
Verification development for the py-load-euctr extraction/load pipeline.

The definitions below are shallow embeddings of the Python source:

* `fetchUrlLoop` / `fetchUrl` embed `EuctrExtractor._fetch_url`
  (py_load_euctr/extractor/euctr.py): a retry loop with a politeness sleep
  before every attempt and an exponential-backoff sleep (`2**attempt +
  random.uniform(0, 1)`) between failed attempts.  The nondeterministic
  jitter is a parameter `jitter : Nat → ℚ`; the outcome of each HTTP attempt
  is a parameter `outcome : Nat → AttemptOutcome α` (attempt index ↦ result).
  Sleeps are recorded in an event trace.
-/

namespace PyLoadEuctr

/-- Outcome of one HTTP GET attempt inside `_fetch_url`: either a parsed JSON
payload (`response.json()`), or an `httpx.HTTPError` (raised by the transport
or by `raise_for_status`). -/
inductive AttemptOutcome (α : Type) where
  | success (payload : α)
  | httpError
deriving DecidableEq

/-- One `asyncio.sleep` executed by `_fetch_url`: the per-attempt politeness
delay, or the backoff between failed attempts. -/
inductive SleepEvent where
  | politeness (d : ℚ)
  | backoff (d : ℚ)
deriving DecidableEq

/-- Embedding of the `for attempt in range(self.max_retries)` loop of
`EuctrExtractor._fetch_url`, started at loop index `attempt`.  Returns the
value returned by the Python function (`Dict | None` becomes `Option α`)
together with the list of sleeps executed, in order. -/
def fetchUrlLoop {α : Type} (outcome : Nat → AttemptOutcome α) (jitter : Nat → ℚ)
    (rateLimitDelay : ℚ) (maxRetries : Nat) (attempt : Nat) :
    Option α × List SleepEvent :=
  if _h : attempt < maxRetries then
    match outcome attempt with
    | .success a => (some a, [.politeness rateLimitDelay])
    | .httpError =>
      if attempt + 1 = maxRetries then
        (none, [.politeness rateLimitDelay])
      else
        let backoffTime : ℚ := 2 ^ attempt + jitter attempt
        let rest := fetchUrlLoop outcome jitter rateLimitDelay maxRetries (attempt + 1)
        (rest.1, .politeness rateLimitDelay :: .backoff backoffTime :: rest.2)
  else
    (none, [])
termination_by maxRetries - attempt
decreasing_by omega

/-- `EuctrExtractor._fetch_url`: run the retry loop from attempt 0. -/
def fetchUrl {α : Type} (outcome : Nat → AttemptOutcome α) (jitter : Nat → ℚ)
    (rateLimitDelay : ℚ) (maxRetries : Nat) : Option α × List SleepEvent :=
  fetchUrlLoop outcome jitter rateLimitDelay maxRetries 0

/-- The backoff sleeps of a trace, in order. -/
def backoffSleeps (events : List SleepEvent) : List ℚ :=
  events.filterMap fun e =>
    match e with
    | .backoff d => some d
    | .politeness _ => none

/-!
Paginated extractors.

`euctrExtractLoop` embeds `EuctrExtractor.extract_trials`
(py_load_euctr/extractor/euctr.py): a `while True` pagination loop starting at
page 1.  The search responses are a parameter `pages : List EuctrPage`; asking
for a page beyond the end of that list models `_fetch_url` returning `None`
(or a body with no `"results"`), which breaks the loop.  Detail fetches are a
parameter `detail : String → Option α` (the result of `_fetch_url` on the
detail URL; `none` covers both a failed fetch and a falsy/empty JSON body,
which `if trial_details:` skips alike).  `asyncio.as_completed` consumes the
page's detail results in completion order, a permutation of submission order;
that order is the parameter `order : Nat → List (Option α) → List (Option α)`
(page number ↦ reordering), constrained to a permutation in the theorems.

`ctisExtractLoop` embeds `CtisExtractor.extract_trials`
(src/py_load_euctr/extractor.py) the same way.  There `_get_trial_list_page`
returns `{}` (falsy) on error, also modelled by running off the end of
`pages`; `_get_full_trial_details` raises `httpx` errors, which the per-item
`try/except` catches, so detail results are `Except HttpFailure (Option α)`
(`.ok none` is a falsy body, skipped by `if trial_details:`).
-/

/-- One entry of `search_results["results"]`: a dict that may carry a
`"url"` key (`trial["url"] for trial in … if "url" in trial`). -/
structure SearchResult where
  url : Option String
deriving DecidableEq

/-- One EUCTR search response: `{"results": […], "has_next_page": …}`
(`has_next_page` truthy or not). -/
structure EuctrPage where
  results : List SearchResult
  has_next_page : Bool
deriving DecidableEq

/-- The query parameters of one EUCTR search request:
`{"page": page}` plus `"last-updated__gte": since_date.isoformat()` when a
since-date is supplied.  Dates are modelled by their ISO rendering. -/
structure EuctrSearchReq where
  page : Nat
  lastUpdatedGte : Option String
deriving DecidableEq

/-- The `while True` pagination loop of `EuctrExtractor.extract_trials`,
at current page number `page`, with the remaining search responses `pages`.
Returns the yielded records in order together with the search requests
issued, in order. -/
def euctrExtractLoop {α : Type} (detail : String → Option α)
    (order : Nat → List (Option α) → List (Option α))
    (sinceDate : Option String) :
    Nat → List EuctrPage → List α × List EuctrSearchReq
  | page, [] => ([], [⟨page, sinceDate⟩])
  | page, p :: rest =>
    let req : EuctrSearchReq := ⟨page, sinceDate⟩
    if p.results.isEmpty then
      ([], [req])
    else
      let trialUrls := p.results.filterMap (fun t => t.url)
      let fetched := order page (trialUrls.map detail)
      let yielded := fetched.filterMap id
      if p.has_next_page then
        let restRun := euctrExtractLoop detail order sinceDate (page + 1) rest
        (yielded ++ restRun.1, req :: restRun.2)
      else
        (yielded, [req])

/-- `EuctrExtractor.extract_trials`: run the pagination loop from page 1. -/
def euctrExtractTrials {α : Type} (detail : String → Option α)
    (order : Nat → List (Option α) → List (Option α))
    (sinceDate : Option String) (pages : List EuctrPage) :
    List α × List EuctrSearchReq :=
  euctrExtractLoop detail order sinceDate 1 pages

/-- An `httpx` exception raised by a CTIS fetch and caught by the extractor:
`httpx.RequestError` or `httpx.HTTPStatusError` (e.g. a 404 from
`raise_for_status`). -/
inductive HttpFailure where
  | requestError
  | statusError
deriving DecidableEq

/-- One entry of `search_results["data"]`: a trial summary whose
`summary.get("ctNumber")` may be absent or falsy (`none` covers both). -/
structure TrialSummary where
  ctNumber : Option String
deriving DecidableEq

/-- One CTIS search response: `{"data": […], "pagination": {"nextPage": …}}`. -/
structure CtisPage where
  data : List TrialSummary
  nextPage : Bool
deriving DecidableEq

/-- The JSON payload of one CTIS search request, as built by
`_get_trial_list_page`: pagination `{page, size}` plus the
`advancedSearch.decisionDate.from` filter when a since-date is supplied. -/
structure CtisSearchReq where
  page : Nat
  size : Nat
  fromDecisionDate : Option String
deriving DecidableEq

/-- Result of awaiting one CTIS detail fetch: `.error` when
`_get_full_trial_details` raised an `httpx` error (caught and skipped),
`.ok none` when it returned a falsy body, `.ok (some a)` otherwise. -/
def ctisYield {α : Type} (r : Except HttpFailure (Option α)) : Option α :=
  match r with
  | .ok (some a) => some a
  | .ok none => none
  | .error _ => none

/-- The `while True` pagination loop of `CtisExtractor.extract_trials`,
at current page number `page`, with the remaining search responses `pages`.
Returns the yielded records in order together with the search payloads
issued, in order. -/
def ctisExtractLoop {α : Type} (detail : String → Except HttpFailure (Option α))
    (order : Nat → List (Except HttpFailure (Option α)) →
      List (Except HttpFailure (Option α)))
    (fromDecisionDate : Option String) :
    Nat → List CtisPage → List α × List CtisSearchReq
  | page, [] => ([], [⟨page, 20, fromDecisionDate⟩])
  | page, p :: rest =>
    let req : CtisSearchReq := ⟨page, 20, fromDecisionDate⟩
    if p.data.isEmpty then
      ([], [req])
    else
      let ctNumbers := p.data.filterMap (fun s => s.ctNumber)
      if ctNumbers.isEmpty then
        ([], [req])
      else
        let fetched := order page (ctNumbers.map detail)
        let yielded := fetched.filterMap ctisYield
        if p.nextPage then
          let restRun := ctisExtractLoop detail order fromDecisionDate (page + 1) rest
          (yielded ++ restRun.1, req :: restRun.2)
        else
          (yielded, [req])

/-- `CtisExtractor.extract_trials`: run the pagination loop from page 1. -/
def ctisExtractTrials {α : Type} (detail : String → Except HttpFailure (Option α))
    (order : Nat → List (Except HttpFailure (Option α)) →
      List (Except HttpFailure (Option α)))
    (fromDecisionDate : Option String) (pages : List CtisPage) :
    List α × List CtisSearchReq :=
  ctisExtractLoop detail order fromDecisionDate 1 pages

/-!
Bronze encoder: `_records_to_csv_stream` (py_load_euctr/cli.py).

Text is modelled as `Str := List Char`.  `jsonDumps` models Python's
`json.dumps` with its default separators; `jsonEscapeChar` covers the escapes
relevant to the line structure of the stream (`"` `\` and the control
characters `\n` `\r` `\t`; Python additionally `\u`-escapes other control and
non-ASCII characters, which the claims never touch).  `csvField`/`csvRow`
model `csv.writer`'s default dialect: QUOTE_MINIMAL quoting (a field is
quoted iff it contains the delimiter, the quote char, or a CR/LF; quotes are
doubled) and `\r\n` line terminator.  `records_to_csv_stream` then follows
the source: empty input gives an empty stream, otherwise a header row from
the first record's keys (the fixed `BronzeLayerRecord` field order of
`model_dump()`) followed by one row per record, with the `data` dict replaced
by `json.dumps(record["data"])`; `csv` writes `None` (`record_hash`) as the
empty string.
-/

/-- Text modelled as a list of characters. -/
abbrev Str := List Char

/-- A JSON-compatible Python value (the `Dict[str, Any]` payloads). -/
inductive Json where
  | str (s : Str)
  | num (n : Int)
  | bool (b : Bool)
  | null
  | arr (elems : List Json)
  | obj (fields : List (Str × Json))

/-- `json.dumps` escaping of one character inside a JSON string. -/
def jsonEscapeChar (c : Char) : Str :=
  if c = '"' then ['\\', '"']
  else if c = '\\' then ['\\', '\\']
  else if c = '\n' then ['\\', 'n']
  else if c = '\r' then ['\\', 'r']
  else if c = '\t' then ['\\', 't']
  else [c]

/-- `json.dumps` escaping of a JSON string body. -/
def jsonEscape (s : Str) : Str :=
  (s.map jsonEscapeChar).flatten

/-- Decimal digit string of a natural number. -/
def natRepr (n : Nat) : Str :=
  if n < 10 then [Nat.digitChar n]
  else natRepr (n / 10) ++ [Nat.digitChar (n % 10)]
termination_by n
decreasing_by exact Nat.div_lt_self (by omega) (by omega)

/-- The text `json.dumps` emits for an integer (`repr(int)`). -/
def intRepr (n : Int) : Str :=
  if n < 0 then '-' :: natRepr n.natAbs else natRepr n.natAbs

/-- Join pieces with a separator, as Python's `sep.join(pieces)`. -/
def joinSep (sep : Str) : List Str → Str
  | [] => []
  | [s] => s
  | s :: q :: rest => s ++ sep ++ joinSep sep (q :: rest)

/-- `json.dumps` with the default separators `(", ", ": ")`. -/
def jsonDumps : Json → Str
  | .str s => '"' :: jsonEscape s ++ ['"']
  | .num n => intRepr n
  | .bool b => if b then "true".toList else "false".toList
  | .null => "null".toList
  | .arr elems =>
    '[' :: joinSep (", ".toList) (elems.attach.map fun e => jsonDumps e.1) ++ [']']
  | .obj fields =>
    '\x7b' :: joinSep (", ".toList)
        (fields.attach.map fun f =>
          '"' :: jsonEscape f.1.1 ++ ['"'] ++ ": ".toList ++ jsonDumps f.1.2)
      ++ ['\x7d']
decreasing_by
· have := List.sizeOf_lt_of_mem e.2
  simp only [Json.arr.sizeOf_spec]
  omega
· obtain ⟨⟨k, v⟩, hf⟩ := f
  have h1 := List.sizeOf_lt_of_mem hf
  simp only [Prod.mk.sizeOf_spec] at h1
  simp only [Json.obj.sizeOf_spec]
  omega

/-- `csv` QUOTE_MINIMAL: a field is quoted iff it contains the delimiter,
the quote character, or a CR/LF. -/
def fieldNeedsQuoting (f : Str) : Bool :=
  f.any fun c => c = ',' ∨ c = '"' ∨ c = '\n' ∨ c = '\r'

/-- `csv` quoting doubles embedded quote characters. -/
def csvEscapeQuote (c : Char) : Str :=
  if c = '"' then ['"', '"'] else [c]

/-- One encoded CSV field (default dialect, QUOTE_MINIMAL). -/
def csvField (f : Str) : Str :=
  if fieldNeedsQuoting f then '"' :: (f.map csvEscapeQuote).flatten ++ ['"'] else f

/-- One CSV row without its line terminator: the fields, encoded and
comma-separated. -/
def csvRowBody (fields : List Str) : Str :=
  joinSep [','] (fields.map csvField)

/-- One CSV row as written by `csv.writer` (terminator `\r\n`). -/
def csvRow (fields : List Str) : Str :=
  csvRowBody fields ++ ['\r', '\n']

/-- A Bronze record as handed to `_records_to_csv_stream`: the
`model_dump()` of `BronzeLayerRecord` (py_load_euctr/models/bronze.py).
The datetime fields are modelled by the text `csv` writes for them. -/
structure BronzeLayerRecord where
  load_id : Str
  extracted_at_utc : Str
  loaded_at_utc : Str
  source_url : Str
  package_version : Str
  record_hash : Option Str
  data : Json

/-- The key order of `BronzeLayerRecord.model_dump()`, used as the CSV
`fieldnames` (taken from `record_list[0].keys()`). -/
def bronzeFieldnames : List Str :=
  ["load_id".toList, "extracted_at_utc".toList, "loaded_at_utc".toList,
   "source_url".toList, "package_version".toList, "record_hash".toList,
   "data".toList]

/-- The field values of one record, in `bronzeFieldnames` order; the `data`
dict is serialized to a JSON string, and `None` is written as the empty
string. -/
def bronzeRowFields (r : BronzeLayerRecord) : List Str :=
  [r.load_id, r.extracted_at_utc, r.loaded_at_utc, r.source_url,
   r.package_version, r.record_hash.getD [], jsonDumps r.data]

/-- `_records_to_csv_stream`: empty input gives an empty stream; otherwise a
header row followed by one CSV row per record. -/
def records_to_csv_stream (records : List BronzeLayerRecord) : Str :=
  match records with
  | [] => []
  | _ :: _ =>
    csvRow bronzeFieldnames ++ (records.map fun r => csvRow (bronzeRowFields r)).flatten

/-- `true` iff the text contains no CR/LF (so it sits on one physical line). -/
def lineFree (s : Str) : Bool :=
  s.all fun c => ¬ (c = '\n' ∨ c = '\r')

/-- Split a byte stream on the `\r\n` terminator, recovering its lines. -/
def splitCRLF : Str → List Str
  | [] => [[]]
  | [c] => [[c]]
  | c1 :: c2 :: rest =>
    if c1 = '\r' ∧ c2 = '\n' then
      [] :: splitCRLF rest
    else
      match splitCRLF (c2 :: rest) with
      | [] => [[c1]]
      | l :: ls => (c1 :: l) :: ls

/-!
Bronze→Silver transformer (`Transformer.transform_bronze_to_silver`,
py_load_euctr/transformers/euctr.py).  The method renders and executes the
SQL template `silver/upsert_trials.sql`, which is not part of the source
tree; the UPSERT it performs is therefore modelled from the spec.
-/

/-- Modelled from the spec: one Bronze row as seen by the UPSERT — the SQL
template `silver/upsert_trials.sql` executed by
`Transformer.transform_bronze_to_silver` is missing from the source tree.
Per the spec's data model, a Bronze row carries a natural trial identifier,
the `loaded_at_utc` timestamp and the `load_id` (both rendered here as
naturals ordered by recency, matching the spec's tie-break "most recent
`loaded_at_utc`, then most recent `load_id`"), and the payload fields that
Silver normalizes. -/
structure BronzeRow where
  trial_id : String
  loaded_at_utc : Nat
  load_id : Nat
  title : String
  protocol_id : Option String
  status : String
  start_date : Option String
  end_date : Option String
deriving DecidableEq

/-- One row of the Silver `trials` table (py_load_euctr/models/silver.py). -/
structure SilverTrial where
  trial_id : String
  title : String
  protocol_id : Option String
  status : String
  start_date : Option String
  end_date : Option String
deriving DecidableEq

/-- The Silver row derived from a Bronze row. -/
def toSilverTrial (b : BronzeRow) : SilverTrial :=
  ⟨b.trial_id, b.title, b.protocol_id, b.status, b.start_date, b.end_date⟩

/-- Modelled from the spec: recency order on Bronze rows (most recent
`loaded_at_utc`, then most recent `load_id`). -/
def newerThan (a b : BronzeRow) : Bool :=
  decide (b.loaded_at_utc < a.loaded_at_utc ∨
    (a.loaded_at_utc = b.loaded_at_utc ∧ b.load_id < a.load_id))

/-- Modelled from the spec: the Bronze row the UPSERT selects for a natural
key — the most recent row of the Bronze dataset carrying that key, or `none`
if the key is absent from Bronze. -/
def newestFor (bronze : List BronzeRow) (key : String) : Option BronzeRow :=
  (bronze.filter fun b => b.trial_id = key).foldl
    (fun acc b =>
      match acc with
      | none => some b
      | some a => if newerThan b a then some b else some a)
    none

/-- Modelled from the spec: the set-based UPSERT executed by
`Transformer.transform_bronze_to_silver` (its `silver/upsert_trials.sql`
template is not in the source tree).  Silver content is the map from natural
key to row: keys present in Bronze are inserted or overwritten with the row
derived from the newest Bronze row for that key; keys absent from Bronze are
never deleted. -/
def transform_bronze_to_silver (bronze : List BronzeRow)
    (silver : String → Option SilverTrial) : String → Option SilverTrial :=
  fun key =>
    match newestFor bronze key with
    | some b => some (toSilverTrial b)
    | none => silver key

/-!
Bulk sink transaction scope: `PostgresLoader.__enter__`/`__exit__`
(src/py_load_euctr/loader/postgres.py).  A connection owns a visible
(committed) row store and the pending rows written inside its open
transaction (`autocommit=False`: every statement in the scope joins the one
transaction).  `pgExit` mirrors `__exit__`: nothing if the connection is
gone, otherwise rollback when exception info is present, commit when not,
and close either way; it returns `None`, so the body's exception propagates.
-/

/-- A connection as `PostgresLoader` holds it: the committed rows visible
outside the transaction, the pending rows of the open transaction, and
whether the connection has been closed. -/
structure PgConn (ρ : Type) where
  committedRows : List ρ
  pendingRows : List ρ
  closed : Bool
deriving DecidableEq

/-- `psycopg.connect(..., autocommit=False)`: a fresh connection over the
current database content, with an empty open transaction. -/
def pgConnect {ρ : Type} (db : List ρ) : PgConn ρ :=
  ⟨db, [], false⟩

/-- `conn.commit()`: pending rows become visible. -/
def pgCommit {ρ : Type} (c : PgConn ρ) : PgConn ρ :=
  ⟨c.committedRows ++ c.pendingRows, [], c.closed⟩

/-- `conn.rollback()`: pending rows are discarded. -/
def pgRollback {ρ : Type} (c : PgConn ρ) : PgConn ρ :=
  ⟨c.committedRows, [], c.closed⟩

/-- `conn.close()`. -/
def pgClose {ρ : Type} (c : PgConn ρ) : PgConn ρ :=
  ⟨c.committedRows, c.pendingRows, true⟩

/-- `PostgresLoader.__exit__`: if the connection is absent do nothing;
otherwise roll back when exception info is present, commit when it is not,
and close the connection in the `finally` block. -/
def pgExit {ε ρ : Type} (excType : Option ε) (conn : Option (PgConn ρ)) :
    Option (PgConn ρ) :=
  match conn with
  | none => none
  | some c => some (pgClose (if excType.isSome then pgRollback c else pgCommit c))

/-- A `with PostgresLoader(...)` scope: `__enter__` opens the connection, the
body runs (leaving the connection in some state and possibly raising, the
raised exception being the `Option ε`), `__exit__` commits or rolls back, and
the exception — `__exit__` returns `None` — propagates.  Returns the
propagated exception and the finally-visible database content. -/
def runWithLoader {ε ρ : Type} (body : PgConn ρ → PgConn ρ × Option ε)
    (db : List ρ) : Option ε × List ρ :=
  let r := body (pgConnect db)
  match pgExit r.2 (some r.1) with
  | some c => (r.2, c.committedRows)
  | none => (r.2, db)

/-!
Eurostat fetcher: `Fetcher.download_dataset` (src/py_load_eurostat/fetcher.py)
with `get_dataset_download_url` (src/py_load_eurostat/parser.py).  The local
cache is a map from path to file content; the streamed HTTP body either
delivers all its chunks or fails with an `httpx` error after writing a
prefix of them, in which case the `except` block deletes the file if it
exists.
-/

/-- One dataset entry parsed from the Eurostat TOC
(`{"code": …, "title": …, "url": …}`). -/
structure DatasetEntry where
  code : String
  title : String
  url : String
deriving DecidableEq

/-- `get_dataset_download_url`: the URL of the first dataset whose code
matches, else `None`. -/
def get_dataset_download_url (datasets : List DatasetEntry)
    (dataset_code : String) : Option String :=
  match datasets.find? (fun d => d.code = dataset_code) with
  | some d => some d.url
  | none => none

/-- `self.settings.cache_dir / f"{dataset_code}.tsv.gz"`. -/
def cachePath (cacheDir dataset_code : String) : String :=
  cacheDir ++ "/" ++ dataset_code ++ ".tsv.gz"

/-- Write a file: the path now maps to the given content. -/
def fsWrite {β : Type} (fs : String → Option (List β)) (path : String)
    (content : List β) : String → Option (List β) :=
  fun p => if p = path then some content else fs p

/-- `os.remove`: the path maps to nothing. -/
def fsRemove {β : Type} (fs : String → Option (List β)) (path : String) :
    String → Option (List β) :=
  fun p => if p = path then none else fs p

/-- The observable behavior of the streamed GET for the dataset file: either
every chunk of the body arrives, or an `httpx` error occurs after the
file received a prefix of the chunks (possibly none). -/
inductive StreamedDownload (β : Type) where
  | ok (chunks : List (List β))
  | failedAfter (written : List (List β))
deriving DecidableEq

/-- `Fetcher.download_dataset`: resolve the download URL from the TOC (an
empty dataset list or an unknown code returns `None` with the cache
untouched), then stream the body to the cache file chunk by chunk.  On an
`httpx` error the partly-written file is removed if it exists and `None` is
returned; on success the path of the fully-written file is returned. -/
def download_dataset {β : Type} (datasets : List DatasetEntry)
    (cacheDir dataset_code : String) (stream : StreamedDownload β)
    (fs : String → Option (List β)) :
    Option String × (String → Option (List β)) :=
  if datasets.isEmpty then (none, fs)
  else
    match get_dataset_download_url datasets dataset_code with
    | none => (none, fs)
    | some _ =>
      let filePath := cachePath cacheDir dataset_code
      match stream with
      | .ok chunks => (some filePath, fsWrite fs filePath chunks.flatten)
      | .failedAfter written =>
        (none, fsRemove (fsWrite fs filePath written.flatten) filePath)

/-! Theorems. -/

/-- If every attempt from `attempt` on fails, the retry loop returns `None`. -/
theorem fetchUrlLoop_fst_of_allFail {α : Type} (outcome : Nat → AttemptOutcome α)
    (jitter : Nat → ℚ) (rl : ℚ) (maxRetries attempt : Nat)
    (hfail : ∀ k, attempt ≤ k → k < maxRetries → outcome k = .httpError) :
    (fetchUrlLoop outcome jitter rl maxRetries attempt).1 = none := by
  generalize hn : maxRetries - attempt = n
  induction n generalizing attempt with
  | zero =>
    rw [fetchUrlLoop]
    have h : ¬ attempt < maxRetries := by omega
    simp [h]
  | succ n ih =>
    rw [fetchUrlLoop]
    have hlt : attempt < maxRetries := by omega
    rw [dif_pos hlt, hfail attempt le_rfl hlt]
    by_cases he : attempt + 1 = maxRetries
    · simp [he]
    · simp only [if_neg he]
      exact ih (attempt + 1) (fun k hk1 hk2 => hfail k (by omega) hk2) (by omega)

/-- If attempts `attempt, …, attempt + k` all fail and attempt `attempt + k`
is not the last permitted one, the `k`-th backoff sleep recorded from loop
index `attempt` is `2 ^ (attempt + k) + jitter (attempt + k)`. -/
theorem fetchUrlLoop_backoff_get {α : Type} (outcome : Nat → AttemptOutcome α)
    (jitter : Nat → ℚ) (rl : ℚ) (maxRetries : Nat) :
    ∀ (k attempt : Nat),
      (∀ i, i ≤ k → outcome (attempt + i) = AttemptOutcome.httpError) →
      attempt + k + 1 < maxRetries →
      (backoffSleeps (fetchUrlLoop outcome jitter rl maxRetries attempt).2).get? k
        = some (2 ^ (attempt + k) + jitter (attempt + k)) := by
  intro k
  induction k with
  | zero =>
    intro attempt hfail hlt
    rw [fetchUrlLoop]
    have h1 : attempt < maxRetries := by omega
    have h0 : outcome attempt = AttemptOutcome.httpError := by simpa using hfail 0 le_rfl
    have h2 : ¬ (attempt + 1 = maxRetries) := by omega
    rw [dif_pos h1, h0]
    simp [h2, backoffSleeps]
  | succ k ih =>
    intro attempt hfail hlt
    rw [fetchUrlLoop]
    have h1 : attempt < maxRetries := by omega
    have h0 : outcome attempt = AttemptOutcome.httpError := by simpa using hfail 0 (by omega)
    have h2 : ¬ (attempt + 1 = maxRetries) := by omega
    rw [dif_pos h1, h0]
    simp only [if_neg h2, backoffSleeps, List.filterMap_cons]
    have ihx := ih (attempt + 1)
      (fun i hi => by simpa [Nat.add_assoc, Nat.add_comm 1 i] using hfail (i + 1) (by omega))
      (by omega)
    simp only [backoffSleeps] at ihx
    simpa [Nat.add_assoc, Nat.add_comm 1 k] using ihx


/-- C1: for any fixed Bronze dataset, running the Bronze-to-Silver
transformer twice in succession with no new Bronze rows between the runs
leaves the Silver content after the second run identical to the content
after the first run — the (spec-modelled) UPSERT is idempotent. -/
theorem transform_bronze_to_silver_idempotent (bronze : List BronzeRow)
    (silver : String → Option SilverTrial) :
    transform_bronze_to_silver bronze (transform_bronze_to_silver bronze silver)
      = transform_bronze_to_silver bronze silver := by
  funext key
  unfold transform_bronze_to_silver
  cases newestFor bronze key <;> rfl

/-- C2: a pipeline run inside one `with PostgresLoader(...)` scope commits
its transaction iff the body finished without an exception.  If the body
(which only writes rows into the open transaction, hence preserves the
committed rows) raises, the rollback leaves the visible database exactly as
it was, so no rows of the run become visible; if it does not raise, the
pending rows of the run are committed and become visible. -/
theorem runWithLoader_commit_iff_no_exception {ε ρ : Type}
    (body : PgConn ρ → PgConn ρ × Option ε) (db : List ρ)
    (hbody : ((body (pgConnect db)).1).committedRows = db) :
    ((runWithLoader body db).1 = none →
      (runWithLoader body db).2 = db ++ ((body (pgConnect db)).1).pendingRows) ∧
    (∀ e, (runWithLoader body db).1 = some e →
      (runWithLoader body db).2 = db) := by
  unfold runWithLoader pgExit
  cases hexc : (body (pgConnect db)).2 with
  | none =>
    refine ⟨fun _ => ?_, fun e he => ?_⟩
    · simp [hexc, pgClose, pgCommit, hbody]
    · simp [hexc] at he
  | some e0 =>
    refine ⟨fun h => ?_, fun e he => ?_⟩
    · simp [hexc] at h
    · simp [hexc, pgClose, pgRollback, hbody]

/-- Witness for C2 at a concrete body (writes one pending row, no
exception) and a concrete failing body. -/
theorem runWithLoader_commit_iff_no_exception_witness :
    ((runWithLoader (fun c : PgConn Nat => ((⟨c.committedRows, [5], c.closed⟩ : PgConn Nat),
        (none : Option Unit))) [1, 2]).1 = none →
      (runWithLoader (fun c : PgConn Nat => ((⟨c.committedRows, [5], c.closed⟩ : PgConn Nat),
        (none : Option Unit))) [1, 2]).2
        = [1, 2] ++ (((fun c : PgConn Nat => ((⟨c.committedRows, [5], c.closed⟩ : PgConn Nat),
            (none : Option Unit))) (pgConnect [1, 2])).1).pendingRows) ∧
    (∀ e, (runWithLoader (fun c : PgConn Nat =>
        ((⟨c.committedRows, [5], c.closed⟩ : PgConn Nat), (none : Option Unit))) [1, 2]).1
          = some e →
      (runWithLoader (fun c : PgConn Nat => ((⟨c.committedRows, [5], c.closed⟩ : PgConn Nat),
        (none : Option Unit))) [1, 2]).2 = [1, 2]) :=
  runWithLoader_commit_iff_no_exception
    (fun c : PgConn Nat => ((⟨c.committedRows, [5], c.closed⟩ : PgConn Nat), (none : Option Unit)))
    [1, 2] rfl

/-- C10: once `download_dataset` has resolved a download URL, an `httpx`
error during streaming leaves no cache file for the dataset on disk and the
function returns `None`; conversely a non-`None` return is the cache path
and the file holds the fully streamed content. -/
theorem download_dataset_no_partial_file {β : Type} (datasets : List DatasetEntry)
    (cacheDir dataset_code : String) (stream : StreamedDownload β)
    (fs : String → Option (List β)) (u : String)
    (hurl : get_dataset_download_url datasets dataset_code = some u) :
    (∀ written, stream = StreamedDownload.failedAfter written →
      (download_dataset datasets cacheDir dataset_code stream fs).1 = none ∧
      (download_dataset datasets cacheDir dataset_code stream fs).2
        (cachePath cacheDir dataset_code) = none) ∧
    (∀ p, (download_dataset datasets cacheDir dataset_code stream fs).1 = some p →
      p = cachePath cacheDir dataset_code ∧
      ∃ chunks, stream = StreamedDownload.ok chunks ∧
        (download_dataset datasets cacheDir dataset_code stream fs).2 p
          = some chunks.flatten) := by
  have hne : datasets.isEmpty = false := by
    cases datasets with
    | nil => simp [get_dataset_download_url] at hurl
    | cons d ds => rfl
  unfold download_dataset
  rw [hne, hurl]
  simp only [Bool.false_eq_true, if_false]
  cases stream with
  | ok chunks =>
    refine ⟨fun w hw => by simp at hw, fun p hp => ?_⟩
    simp only at hp
    obtain rfl : cachePath cacheDir dataset_code = p := by
      simpa using hp
    exact ⟨rfl, chunks, rfl, by simp [fsWrite]⟩
  | failedAfter written =>
    refine ⟨fun w _ => ⟨rfl, by simp [fsRemove]⟩, fun p hp => by simp at hp⟩

/-- Witness for C10 at a concrete TOC, a failed stream and a successful
stream. -/
theorem download_dataset_no_partial_file_witness :
    ((∀ written, StreamedDownload.failedAfter [[0, 1]] = StreamedDownload.failedAfter written →
      (download_dataset [⟨"nrg", "Energy", "http:dl"⟩] "/cache" "nrg"
        (StreamedDownload.failedAfter [[0, 1]]) (fun _ => (none : Option (List Nat)))).1 = none ∧
      (download_dataset [⟨"nrg", "Energy", "http:dl"⟩] "/cache" "nrg"
        (StreamedDownload.failedAfter [[0, 1]]) (fun _ => (none : Option (List Nat)))).2
        (cachePath "/cache" "nrg") = none) ∧
    (∀ p, (download_dataset [⟨"nrg", "Energy", "http:dl"⟩] "/cache" "nrg"
        (StreamedDownload.failedAfter [[0, 1]]) (fun _ => (none : Option (List Nat)))).1 = some p →
      p = cachePath "/cache" "nrg" ∧
      ∃ chunks, StreamedDownload.failedAfter [[0, 1]] = StreamedDownload.ok chunks ∧
        (download_dataset [⟨"nrg", "Energy", "http:dl"⟩] "/cache" "nrg"
          (StreamedDownload.failedAfter [[0, 1]]) (fun _ => (none : Option (List Nat)))).2 p
          = some chunks.flatten)) :=
  download_dataset_no_partial_file [⟨"nrg", "Energy", "http:dl"⟩] "/cache" "nrg"
    (StreamedDownload.failedAfter [[0, 1]]) (fun _ => (none : Option (List Nat)))
    "http:dl" rfl

/-- C3: when every attempt up to `max_retries` fails, `_fetch_url` returns
the failure signal `None` instead of raising (totality of the embedding:
the only exceptions raised inside the loop are the `httpx.HTTPError`s it
catches), and the extractor treats such an item as absent: a page whose one
detail URL always fails to fetch yields no record and the extraction
completes normally. -/
theorem fetchUrl_retry_exhaustion {α : Type} (outcome : Nat → AttemptOutcome α)
    (jitter : Nat → ℚ) (rl : ℚ) (maxRetries : Nat)
    (hfail : ∀ k, k < maxRetries → outcome k = AttemptOutcome.httpError)
    (u : String) (order : Nat → List (Option α) → List (Option α))
    (horder : ∀ n l, List.Perm (order n l) l) :
    (fetchUrl outcome jitter rl maxRetries).1 = none ∧
    euctrExtractTrials (fun _ => (fetchUrl outcome jitter rl maxRetries).1)
        order none [⟨[⟨some u⟩], false⟩]
      = ([], [⟨1, none⟩]) := by
  have hnone : (fetchUrl outcome jitter rl maxRetries).1 = none :=
    fetchUrlLoop_fst_of_allFail outcome jitter rl maxRetries 0
      (fun k _ hk => hfail k hk)
  refine ⟨hnone, ?_⟩
  have hord : order 1 [(none : Option α)] = [none] :=
    List.perm_singleton.mp (horder 1 [none])
  simp [euctrExtractTrials, euctrExtractLoop, hnone, hord]

/-- Witness for C3: two attempts, both failing. -/
theorem fetchUrl_retry_exhaustion_witness :
    (fetchUrl (fun _ => (AttemptOutcome.httpError : AttemptOutcome Nat))
      (fun _ => 0) 0 2).1 = none ∧
    euctrExtractTrials
        (fun _ => (fetchUrl (fun _ => (AttemptOutcome.httpError : AttemptOutcome Nat))
          (fun _ => 0) 0 2).1)
        (fun _ l => l) none [⟨[⟨some "u"⟩], false⟩]
      = ([], [⟨1, none⟩]) :=
  fetchUrl_retry_exhaustion (fun _ => (AttemptOutcome.httpError : AttemptOutcome Nat))
    (fun _ => 0) 0 2 (fun _ _ => rfl) "u" (fun _ l => l)
    (fun _ l => List.Perm.refl l)

/-- C4: if attempt `k` (0-indexed) fails and is not the last permitted
attempt, the `k`-th backoff delay of the run is exactly `2 ^ k + jitter k`,
which lies in `[2 ^ k, 2 ^ k + 1)` whenever the jitter is in `[0, 1)`
(uniformity of the draw is a probabilistic property outside the embedding;
the code draws it with `random.uniform(0, 1)`). -/
theorem fetchUrl_backoff_exponential {α : Type}
    (outcome : Nat → AttemptOutcome α) (jitter : Nat → ℚ) (rl : ℚ)
    (maxRetries k : Nat)
    (hfail : ∀ i, i ≤ k → outcome i = AttemptOutcome.httpError)
    (hnotlast : k + 1 < maxRetries)
    (hjit0 : 0 ≤ jitter k) (hjit1 : jitter k < 1) :
    (backoffSleeps (fetchUrl outcome jitter rl maxRetries).2).get? k
        = some (2 ^ k + jitter k) ∧
    (2 : ℚ) ^ k ≤ 2 ^ k + jitter k ∧ (2 : ℚ) ^ k + jitter k < 2 ^ k + 1 := by
  refine ⟨?_, by linarith, by linarith⟩
  have h := fetchUrlLoop_backoff_get outcome jitter rl maxRetries k 0
    (fun i hi => by simpa using hfail i hi) (by omega)
  simpa [fetchUrl] using h

/-- Witness for C4: three permitted attempts, attempt 0 fails, jitter 1/2:
the first backoff is `2 ^ 0 + 1/2`. -/
theorem fetchUrl_backoff_exponential_witness :
    (backoffSleeps (fetchUrl (fun _ => (AttemptOutcome.httpError : AttemptOutcome Nat))
        (fun _ => 1/2) 0 3).2).get? 0
      = some (2 ^ 0 + (fun _ : Nat => (1 : ℚ)/2) 0) ∧
    (2 : ℚ) ^ 0 ≤ 2 ^ 0 + (fun _ : Nat => (1 : ℚ)/2) 0 ∧
    (2 : ℚ) ^ 0 + (fun _ : Nat => (1 : ℚ)/2) 0 < 2 ^ 0 + 1 :=
  fetchUrl_backoff_exponential (fun _ => (AttemptOutcome.httpError : AttemptOutcome Nat))
    (fun _ => 1/2) 0 3 0 (fun _ _ => rfl) (by omega) (by norm_num) (by norm_num)

/-- Every search request issued by the EUCTR pagination loop carries the
supplied since-date filter (and no filter when none was supplied). -/
theorem euctrExtractLoop_filter_invariant {α : Type} (detail : String → Option α)
    (order : Nat → List (Option α) → List (Option α)) (sinceDate : Option String) :
    ∀ (pages : List EuctrPage) (page : Nat) (r : EuctrSearchReq),
      r ∈ (euctrExtractLoop detail order sinceDate page pages).2 →
      r.lastUpdatedGte = sinceDate := by
  intro pages
  induction pages with
  | nil =>
    intro page r hr
    simp only [euctrExtractLoop, List.mem_singleton] at hr
    simp [hr]
  | cons p rest ih =>
    intro page r hr
    simp only [euctrExtractLoop] at hr
    by_cases h1 : p.results.isEmpty
    · simp only [h1, if_true, List.mem_singleton] at hr
      simp [hr]
    · simp only [h1, Bool.false_eq_true, if_false] at hr
      by_cases h2 : p.has_next_page
      · simp only [h2, if_true, List.mem_cons] at hr
        rcases hr with hr | hr
        · simp [hr]
        · exact ih (page + 1) r hr
      · simp only [h2, Bool.false_eq_true, if_false, List.mem_singleton] at hr
        simp [hr]

/-- Every search payload issued by the CTIS pagination loop carries the
supplied decision-date filter (and no filter when none was supplied). -/
theorem ctisExtractLoop_filter_invariant {α : Type}
    (detail : String → Except HttpFailure (Option α))
    (order : Nat → List (Except HttpFailure (Option α)) →
      List (Except HttpFailure (Option α)))
    (fromDate : Option String) :
    ∀ (pages : List CtisPage) (page : Nat) (r : CtisSearchReq),
      r ∈ (ctisExtractLoop detail order fromDate page pages).2 →
      r.fromDecisionDate = fromDate := by
  intro pages
  induction pages with
  | nil =>
    intro page r hr
    simp only [ctisExtractLoop, List.mem_singleton] at hr
    simp [hr]
  | cons p rest ih =>
    intro page r hr
    simp only [ctisExtractLoop] at hr
    by_cases h1 : p.data.isEmpty
    · simp only [h1, if_true, List.mem_singleton] at hr
      simp [hr]
    · simp only [h1, Bool.false_eq_true, if_false] at hr
      by_cases h0 : (p.data.filterMap fun s => s.ctNumber).isEmpty
      · simp only [h0, if_true, List.mem_singleton] at hr
        simp [hr]
      · simp only [h0, Bool.false_eq_true, if_false] at hr
        by_cases h2 : p.nextPage
        · simp only [h2, if_true, List.mem_cons] at hr
          rcases hr with hr | hr
          · simp [hr]
          · exact ih (page + 1) r hr
        · simp only [h2, Bool.false_eq_true, if_false, List.mem_singleton] at hr
          simp [hr]

/-- C5: on search pages `[{2 items, next=true}, {1 item, next=false}]` with
all detail fetches succeeding, both extractor variants yield exactly 3
records and issue exactly 2 page requests before terminating. -/
theorem pagination_termination {α : Type}
    (detail : String → Option α)
    (order : Nat → List (Option α) → List (Option α))
    (horder : ∀ n l, List.Perm (order n l) l)
    (u1 u2 u3 : String) (r1 r2 r3 : α)
    (h1 : detail u1 = some r1) (h2 : detail u2 = some r2)
    (h3 : detail u3 = some r3)
    (detailC : String → Except HttpFailure (Option α))
    (orderC : Nat → List (Except HttpFailure (Option α)) →
      List (Except HttpFailure (Option α)))
    (horderC : ∀ n l, List.Perm (orderC n l) l)
    (c1 c2 c3 : String) (s1 s2 s3 : α)
    (hc1 : detailC c1 = Except.ok (some s1))
    (hc2 : detailC c2 = Except.ok (some s2))
    (hc3 : detailC c3 = Except.ok (some s3)) :
    ((euctrExtractTrials detail order none
        [⟨[⟨some u1⟩, ⟨some u2⟩], true⟩, ⟨[⟨some u3⟩], false⟩]).1.length = 3 ∧
     (euctrExtractTrials detail order none
        [⟨[⟨some u1⟩, ⟨some u2⟩], true⟩, ⟨[⟨some u3⟩], false⟩]).2.length = 2) ∧
    ((ctisExtractTrials detailC orderC none
        [⟨[⟨some c1⟩, ⟨some c2⟩], true⟩, ⟨[⟨some c3⟩], false⟩]).1.length = 3 ∧
     (ctisExtractTrials detailC orderC none
        [⟨[⟨some c1⟩, ⟨some c2⟩], true⟩, ⟨[⟨some c3⟩], false⟩]).2.length = 2) := by
  have e1 : ((order 1 [detail u1, detail u2]).filterMap id).length = 2 := by
    have h := ((horder 1 [detail u1, detail u2]).filterMap id).length_eq
    simpa [h1, h2] using h
  have e2 : ((order 2 [detail u3]).filterMap id).length = 1 := by
    have h := ((horder 2 [detail u3]).filterMap id).length_eq
    simpa [h3] using h
  have f1 : ((orderC 1 [detailC c1, detailC c2]).filterMap ctisYield).length = 2 := by
    have h := ((horderC 1 [detailC c1, detailC c2]).filterMap ctisYield).length_eq
    simpa [hc1, hc2, ctisYield] using h
  have f2 : ((orderC 2 [detailC c3]).filterMap ctisYield).length = 1 := by
    have h := ((horderC 2 [detailC c3]).filterMap ctisYield).length_eq
    simpa [hc3, ctisYield] using h
  refine ⟨⟨?_, ?_⟩, ⟨?_, ?_⟩⟩
  · simp [euctrExtractTrials, euctrExtractLoop, e1, e2]
  · simp [euctrExtractTrials, euctrExtractLoop]
  · simp [ctisExtractTrials, ctisExtractLoop, f1, f2]
  · simp [ctisExtractTrials, ctisExtractLoop]

/-- Witness for C5 with submission-order consumption and concrete records. -/
theorem pagination_termination_witness :
    ((euctrExtractTrials (fun u => if u = "u3" then some 30 else
          if u = "u2" then some 20 else some 10) (fun _ l => l) none
        [⟨[⟨some "u1"⟩, ⟨some "u2"⟩], true⟩, ⟨[⟨some "u3"⟩], false⟩]).1.length = 3 ∧
     (euctrExtractTrials (fun u => if u = "u3" then some 30 else
          if u = "u2" then some 20 else some 10) (fun _ l => l) none
        [⟨[⟨some "u1"⟩, ⟨some "u2"⟩], true⟩, ⟨[⟨some "u3"⟩], false⟩]).2.length = 2) ∧
    ((ctisExtractTrials (fun u => if u = "c3" then Except.ok (some 3) else
          if u = "c2" then Except.ok (some 2) else Except.ok (some 1))
        (fun _ l => l) none
        [⟨[⟨some "c1"⟩, ⟨some "c2"⟩], true⟩, ⟨[⟨some "c3"⟩], false⟩]).1.length = 3 ∧
     (ctisExtractTrials (fun u => if u = "c3" then Except.ok (some 3) else
          if u = "c2" then Except.ok (some 2) else Except.ok (some 1))
        (fun _ l => l) none
        [⟨[⟨some "c1"⟩, ⟨some "c2"⟩], true⟩, ⟨[⟨some "c3"⟩], false⟩]).2.length = 2) :=
  pagination_termination
    (fun u => if u = "u3" then some 30 else if u = "u2" then some 20 else some 10)
    (fun _ l => l) (fun _ l => List.Perm.refl l)
    "u1" "u2" "u3" (10 : Nat) 20 30 (by simp) (by simp) (by simp)
    (fun u => if u = "c3" then Except.ok (some 3) else
      if u = "c2" then Except.ok (some 2) else Except.ok (some 1))
    (fun _ l => l) (fun _ l => List.Perm.refl l)
    "c1" "c2" "c3" 1 2 3 (by simp) (by simp) (by simp)

/-- C6: for a page mixing failing and succeeding detail fetches, both
extractor variants yield exactly the successfully fetched records (up to the
unspecified within-page completion order) and skip the failed ones; the
embedding is total, so no exception reaches the consumer. -/
theorem partial_detail_failure {α : Type}
    (detail : String → Option α)
    (order : Nat → List (Option α) → List (Option α))
    (horder : ∀ n l, List.Perm (order n l) l)
    (results : List SearchResult)
    (detailC : String → Except HttpFailure (Option α))
    (orderC : Nat → List (Except HttpFailure (Option α)) →
      List (Except HttpFailure (Option α)))
    (horderC : ∀ n l, List.Perm (orderC n l) l)
    (summaries : List TrialSummary) :
    List.Perm (euctrExtractTrials detail order none [⟨results, false⟩]).1
      (((results.filterMap fun t => t.url).map detail).filterMap id) ∧
    List.Perm (ctisExtractTrials detailC orderC none [⟨summaries, false⟩]).1
      (((summaries.filterMap fun s => s.ctNumber).map detailC).filterMap ctisYield) := by
  constructor
  · by_cases h1 : results.isEmpty
    · have hres : results = [] := by simpa using h1
      subst hres
      simp [euctrExtractTrials, euctrExtractLoop]
    · simp only [euctrExtractTrials, euctrExtractLoop, h1, Bool.false_eq_true,
        if_false]
      exact (horder 1 _).filterMap id
  · by_cases h1 : summaries.isEmpty
    · have hsum : summaries = [] := by simpa using h1
      subst hsum
      simp [ctisExtractTrials, ctisExtractLoop]
    · by_cases h0 : (summaries.filterMap fun s => s.ctNumber).isEmpty
      · have hns : (summaries.filterMap fun s => s.ctNumber) = [] := by simpa using h0
        simp [ctisExtractTrials, ctisExtractLoop, h1, hns]
      · simp only [ctisExtractTrials, ctisExtractLoop, h1, h0, Bool.false_eq_true,
          if_false]
        exact (horderC 1 _).filterMap ctisYield

/-- Witness for C6: a page with two identifiers where one detail fetch
fails (EUCTR: retry-exhausted `None`; CTIS: a 404 `HTTPStatusError`) and one
succeeds. -/
theorem partial_detail_failure_witness :
    List.Perm (euctrExtractTrials (fun u => if u = "ok" then some 1 else none)
        (fun _ l => l) none [⟨[⟨some "bad"⟩, ⟨some "ok"⟩], false⟩]).1
      ((([⟨some "bad"⟩, ⟨some "ok"⟩].filterMap fun t : SearchResult => t.url).map
          (fun u => if u = "ok" then some 1 else none)).filterMap id) ∧
    List.Perm (ctisExtractTrials
        (fun u => if u = "ok" then Except.ok (some (1 : Nat))
          else Except.error HttpFailure.statusError)
        (fun _ l => l) none [⟨[⟨some "bad"⟩, ⟨some "ok"⟩], false⟩]).1
      ((([⟨some "bad"⟩, ⟨some "ok"⟩].filterMap fun s : TrialSummary => s.ctNumber).map
          (fun u => if u = "ok" then Except.ok (some (1 : Nat))
            else Except.error HttpFailure.statusError)).filterMap ctisYield) :=
  partial_detail_failure (fun u => if u = "ok" then some 1 else none)
    (fun _ l => l) (fun _ l => List.Perm.refl l)
    [⟨some "bad"⟩, ⟨some "ok"⟩]
    (fun u => if u = "ok" then Except.ok (some (1 : Nat))
      else Except.error HttpFailure.statusError)
    (fun _ l => l) (fun _ l => List.Perm.refl l)
    [⟨some "bad"⟩, ⟨some "ok"⟩]

/-- C8: a supplied since-date appears in the filter payload of every page
request either extractor variant issues, and no date filter appears in any
page request when none is supplied (`sinceDate = none` models the absent
filter key). -/
theorem delta_filter_propagation {α : Type}
    (detail : String → Option α)
    (order : Nat → List (Option α) → List (Option α))
    (pages : List EuctrPage)
    (detailC : String → Except HttpFailure (Option α))
    (orderC : Nat → List (Except HttpFailure (Option α)) →
      List (Except HttpFailure (Option α)))
    (pagesC : List CtisPage) (sinceDate : Option String) :
    (∀ r ∈ (euctrExtractTrials detail order sinceDate pages).2,
      r.lastUpdatedGte = sinceDate) ∧
    (∀ r ∈ (ctisExtractTrials detailC orderC sinceDate pagesC).2,
      r.fromDecisionDate = sinceDate) :=
  ⟨fun r hr => euctrExtractLoop_filter_invariant detail order sinceDate pages 1 r hr,
   fun r hr => ctisExtractLoop_filter_invariant detailC orderC sinceDate pagesC 1 r hr⟩

/-- Witness for C8: a concrete one-page run with a since-date (the issued
request carries it) and one without (the issued request carries none). -/
theorem delta_filter_propagation_witness :
    (⟨1, some "2024-06-01"⟩ : EuctrSearchReq).lastUpdatedGte = some "2024-06-01" ∧
    (⟨1, 20, none⟩ : CtisSearchReq).fromDecisionDate = none :=
  ⟨(delta_filter_propagation (fun _ => (some 0 : Option Nat)) (fun _ l => l)
      [⟨[⟨some "u"⟩], false⟩] (fun _ => Except.ok (some 0)) (fun _ l => l)
      [⟨[⟨some "c"⟩], false⟩] (some "2024-06-01")).1 ⟨1, some "2024-06-01"⟩
      (by simp [euctrExtractTrials, euctrExtractLoop]),
   (delta_filter_propagation (fun _ => (some 0 : Option Nat)) (fun _ l => l)
      [⟨[⟨some "u"⟩], false⟩] (fun _ => Except.ok (some 0)) (fun _ l => l)
      [⟨[⟨some "c"⟩], false⟩] none).2 ⟨1, 20, none⟩
      (by simp [ctisExtractTrials, ctisExtractLoop])⟩

/-- C9 counterexample: for the EUCTR variant the claim fails.  Page 1 has a
non-empty `results` list with no extractable identifiers (no `"url"` key)
and signals a next page; the extractor does not end there — it issues a
second page request and yields the record of page 2. -/
theorem euctr_identifierless_page_counterexample :
    euctrExtractTrials (fun _ => some 7) (fun _ l => l) none
        [⟨[⟨none⟩], true⟩, ⟨[⟨some "u"⟩], false⟩]
      = ([7], [⟨1, none⟩, ⟨2, none⟩]) :=
  rfl

/-- C9 (amended): a page with a non-empty item list but no extractable
natural identifiers ends the whole extraction in the CTIS variant (no
records, no further page requests); the EUCTR variant yields nothing for
such a page but ends the extraction only when the page signals no next
page — otherwise it proceeds to the next page. -/
theorem identifierless_page_policy {α : Type}
    (detailC : String → Except HttpFailure (Option α))
    (orderC : Nat → List (Except HttpFailure (Option α)) →
      List (Except HttpFailure (Option α)))
    (detail : String → Option α)
    (order : Nat → List (Option α) → List (Option α))
    (horder : ∀ n l, List.Perm (order n l) l)
    (since : Option String) (page : Nat)
    (summaries : List TrialSummary) (b : Bool) (restC : List CtisPage)
    (hneC : summaries ≠ [])
    (hidsC : (summaries.filterMap fun s => s.ctNumber) = [])
    (results : List SearchResult) (restE : List EuctrPage)
    (hneE : results ≠ [])
    (hidsE : (results.filterMap fun t => t.url) = []) :
    ctisExtractLoop detailC orderC since page (⟨summaries, b⟩ :: restC)
      = ([], [⟨page, 20, since⟩]) ∧
    euctrExtractLoop detail order since page (⟨results, true⟩ :: restE)
      = ((euctrExtractLoop detail order since (page + 1) restE).1,
         ⟨page, since⟩ :: (euctrExtractLoop detail order since (page + 1) restE).2) ∧
    euctrExtractLoop detail order since page (⟨results, false⟩ :: restE)
      = ([], [⟨page, since⟩]) := by
  have hordnil : order page [] = [] := by
    have h := horder page []
    simpa using h.eq_nil
  refine ⟨?_, ?_, ?_⟩
  · simp [ctisExtractLoop, hneC, hidsC]
  · simp [euctrExtractLoop, hneE, hidsE, hordnil]
  · simp [euctrExtractLoop, hneE, hidsE, hordnil]

/-- Witness for C9 (amended) at concrete one-bad-entry pages. -/
theorem identifierless_page_policy_witness :
    ctisExtractLoop (fun _ => Except.ok (some (0 : Nat))) (fun _ l => l) none 1
        [⟨[⟨none⟩], true⟩]
      = ([], [⟨1, 20, none⟩]) ∧
    euctrExtractLoop (fun _ => (some 0 : Option Nat)) (fun _ l => l) none 1
        [⟨[⟨none⟩], true⟩]
      = ((euctrExtractLoop (fun _ => (some 0 : Option Nat)) (fun _ l => l) none 2 []).1,
         ⟨1, none⟩ :: (euctrExtractLoop (fun _ => (some 0 : Option Nat))
            (fun _ l => l) none 2 []).2) ∧
    euctrExtractLoop (fun _ => (some 0 : Option Nat)) (fun _ l => l) none 1
        [⟨[⟨none⟩], false⟩]
      = ([], [⟨1, none⟩]) := by
  have h := identifierless_page_policy (fun _ => Except.ok (some (0 : Nat)))
    (fun _ l => l) (fun _ => (some 0 : Option Nat)) (fun _ l => l)
    (fun _ l => List.Perm.refl l) none 1
    [⟨none⟩] true [] (by simp) rfl
    [⟨none⟩] [] (by simp) rfl
  simpa using h

/-- `lineFree` characterized by membership. -/
theorem lineFree_eq_true_iff (s : Str) :
    lineFree s = true ↔ ∀ c ∈ s, ¬ (c = '\n' ∨ c = '\r') := by
  simp [lineFree]

/-- `Nat.digitChar` never produces a CR/LF. -/
theorem digitChar_not_line (d : Nat) :
    ¬ (Nat.digitChar d = '\n' ∨ Nat.digitChar d = '\r') := by
  by_cases h : d < 16
  · interval_cases d <;> decide
  · obtain ⟨n, rfl⟩ : ∃ n, d = n + 16 := ⟨d - 16, by omega⟩
    have h16 : Nat.digitChar (n + 16) = '*' := rfl
    rw [h16]
    decide

/-- The decimal rendering of a natural number has no CR/LF. -/
theorem natRepr_lineFree (n : Nat) : lineFree (natRepr n) = true := by
  induction n using Nat.strong_induction_on with
  | _ n ih =>
    rw [natRepr]
    by_cases h : n < 10
    · rw [if_pos h, lineFree_eq_true_iff]
      intro c hc
      simp only [List.mem_singleton] at hc
      subst hc
      exact digitChar_not_line n
    · rw [if_neg h, lineFree_eq_true_iff]
      intro c hc
      rcases List.mem_append.mp hc with hc | hc
      · have h1 := ih (n / 10) (Nat.div_lt_self (by omega) (by omega))
        rw [lineFree_eq_true_iff] at h1
        exact h1 c hc
      · simp only [List.mem_singleton] at hc
        subst hc
        exact digitChar_not_line (n % 10)

/-- The rendering of an integer has no CR/LF. -/
theorem intRepr_lineFree (n : Int) : lineFree (intRepr n) = true := by
  unfold intRepr
  split_ifs
  · rw [lineFree_eq_true_iff]
    intro c hc
    simp only [List.mem_cons] at hc
    rcases hc with rfl | hc
    · decide
    · have h1 := natRepr_lineFree n.natAbs
      rw [lineFree_eq_true_iff] at h1
      exact h1 c hc
  · exact natRepr_lineFree n.natAbs

/-- One escaped character of a JSON string has no CR/LF. -/
theorem jsonEscapeChar_lineFree (c : Char) : lineFree (jsonEscapeChar c) = true := by
  unfold jsonEscapeChar
  split_ifs with h1 h2 h3 h4 h5
  · decide
  · decide
  · decide
  · decide
  · decide
  · rw [lineFree_eq_true_iff]
    intro x hx
    simp only [List.mem_singleton] at hx
    subst hx
    exact fun h => h.elim h3 h4

/-- An escaped JSON string body has no CR/LF. -/
theorem jsonEscape_lineFree (s : Str) : lineFree (jsonEscape s) = true := by
  rw [lineFree_eq_true_iff]
  intro c hc
  unfold jsonEscape at hc
  rw [List.mem_flatten] at hc
  obtain ⟨l, hl, hcl⟩ := hc
  rw [List.mem_map] at hl
  obtain ⟨x, _, rfl⟩ := hl
  have h1 := jsonEscapeChar_lineFree x
  rw [lineFree_eq_true_iff] at h1
  exact h1 c hcl

/-- Membership in a separator-join comes from the separator or a piece. -/
theorem mem_joinSep {c : Char} (sep : Str) :
    ∀ pieces : List Str, c ∈ joinSep sep pieces →
      c ∈ sep ∨ ∃ p ∈ pieces, c ∈ p := by
  intro pieces
  induction pieces with
  | nil =>
    intro h
    simp [joinSep] at h
  | cons p rest ih =>
    cases rest with
    | nil =>
      intro h
      right
      exact ⟨p, by simp, by simpa [joinSep] using h⟩
    | cons q rest2 =>
      intro h
      rw [joinSep] at h
      rcases List.mem_append.mp h with h | h
      · rcases List.mem_append.mp h with h | h
        · right
          exact ⟨p, by simp, h⟩
        · left
          exact h
      · rcases ih h with h | ⟨x, hx, hcx⟩
        · left
          exact h
        · right
          exact ⟨x, by simp [hx], hcx⟩

/-- An encoded CSV field of a CR/LF-free field text is CR/LF-free (the
quoting added for commas and quotes introduces no new line breaks). -/
theorem csvField_lineFree (f : Str) (hf : lineFree f = true) :
    lineFree (csvField f) = true := by
  unfold csvField
  split_ifs with h
  · rw [lineFree_eq_true_iff]
    intro c hc
    rcases List.mem_append.mp hc with hc | hc
    · rcases List.mem_cons.mp hc with rfl | hc
      · decide
      · rw [List.mem_flatten] at hc
        obtain ⟨l, hl, hcl⟩ := hc
        rw [List.mem_map] at hl
        obtain ⟨x, hx, rfl⟩ := hl
        unfold csvEscapeQuote at hcl
        split_ifs at hcl
        · simp only [List.mem_cons, List.mem_singleton, List.not_mem_nil,
            or_false] at hcl
          rcases hcl with rfl | rfl <;> decide
        · simp only [List.mem_singleton] at hcl
          subst hcl
          rw [lineFree_eq_true_iff] at hf
          exact hf _ hx
    · simp only [List.mem_singleton] at hc
      subst hc
      decide
  · exact hf

/-- A CSV row body over CR/LF-free fields is CR/LF-free. -/
theorem csvRowBody_lineFree (fields : List Str)
    (h : ∀ f ∈ fields, lineFree f = true) :
    lineFree (csvRowBody fields) = true := by
  rw [lineFree_eq_true_iff]
  intro c hc
  unfold csvRowBody at hc
  rcases mem_joinSep [','] (fields.map csvField) hc with h1 | ⟨p, hp, hcp⟩
  · simp only [List.mem_singleton] at h1
    subst h1
    decide
  · rw [List.mem_map] at hp
    obtain ⟨f, hf, rfl⟩ := hp
    have h2 := csvField_lineFree f (h f hf)
    rw [lineFree_eq_true_iff] at h2
    exact h2 c hcp

/-- `json.dumps` output has no raw CR/LF: line breaks inside strings are
escaped, and all structural punctuation is line-break-free. -/
theorem jsonDumps_lineFree_aux :
    ∀ (n : Nat) (j : Json), sizeOf j ≤ n → lineFree (jsonDumps j) = true := by
  intro n
  induction n using Nat.strong_induction_on with
  | _ n ih =>
    intro j hj
    cases j with
    | str s =>
      rw [jsonDumps, lineFree_eq_true_iff]
      intro c hc
      rcases List.mem_append.mp hc with hc | hc
      · rcases List.mem_cons.mp hc with rfl | hc
        · decide
        · have h1 := jsonEscape_lineFree s
          rw [lineFree_eq_true_iff] at h1
          exact h1 c hc
      · simp only [List.mem_singleton] at hc
        subst hc
        decide
    | num m =>
      rw [jsonDumps]
      exact intRepr_lineFree m
    | bool b =>
      cases b <;> rw [jsonDumps] <;> decide
    | null =>
      rw [jsonDumps]
      decide
    | arr elems =>
      rw [jsonDumps, lineFree_eq_true_iff]
      intro c hc
      rcases List.mem_append.mp hc with hc | hc
      · rcases List.mem_cons.mp hc with rfl | hc
        · decide
        rcases mem_joinSep _ _ hc with h1 | ⟨p, hp, hcp⟩
        · have hsep : lineFree (", ".toList) = true := by decide
          rw [lineFree_eq_true_iff] at hsep
          exact hsep c h1
        · rw [List.mem_map] at hp
          obtain ⟨e, _, rfl⟩ := hp
          have hsz : sizeOf e.1 < n := by
            have h1 := List.sizeOf_lt_of_mem e.2
            have h2 : sizeOf (Json.arr elems) = 1 + sizeOf elems :=
              Json.arr.sizeOf_spec elems
            omega
          have h3 := ih (sizeOf e.1) hsz e.1 le_rfl
          rw [lineFree_eq_true_iff] at h3
          exact h3 c hcp
      · simp only [List.mem_singleton] at hc
        subst hc
        decide
    | obj fields =>
      rw [jsonDumps, lineFree_eq_true_iff]
      intro c hc
      rcases List.mem_append.mp hc with hc | hc
      · rcases List.mem_cons.mp hc with rfl | hc
        · decide
        rcases mem_joinSep _ _ hc with h1 | ⟨p, hp, hcp⟩
        · have hsep : lineFree (", ".toList) = true := by decide
          rw [lineFree_eq_true_iff] at hsep
          exact hsep c h1
        · rw [List.mem_map] at hp
          obtain ⟨f, _, rfl⟩ := hp
          obtain ⟨⟨k, v⟩, hfmem⟩ := f
          rcases List.mem_append.mp hcp with hcp | hcp
          · rcases List.mem_append.mp hcp with hcp | hcp
            · rcases List.mem_append.mp hcp with hcp | hcp
              · rcases List.mem_cons.mp hcp with rfl | hcp
                · decide
                · have h1 := jsonEscape_lineFree k
                  rw [lineFree_eq_true_iff] at h1
                  exact h1 c hcp
              · simp only [List.mem_singleton] at hcp
                subst hcp
                decide
            · have hsep : lineFree (": ".toList) = true := by decide
              rw [lineFree_eq_true_iff] at hsep
              exact hsep c hcp
          · have hsz : sizeOf v < n := by
              have h1 := List.sizeOf_lt_of_mem hfmem
              have h2 : sizeOf (Json.obj fields) = 1 + sizeOf fields :=
                Json.obj.sizeOf_spec fields
              simp only [Prod.mk.sizeOf_spec] at h1
              omega
            have h3 := ih (sizeOf v) hsz v le_rfl
            rw [lineFree_eq_true_iff] at h3
            exact h3 c hcp
      · simp only [List.mem_singleton] at hc
        subst hc
        decide

/-- `json.dumps` output sits on one line. -/
theorem jsonDumps_lineFree (j : Json) : lineFree (jsonDumps j) = true :=
  jsonDumps_lineFree_aux (sizeOf j) j le_rfl

/-- Splitting a CR/LF-free prefix followed by a terminator peels one line. -/
theorem splitCRLF_append (rest : Str) :
    ∀ a : Str, lineFree a = true →
      splitCRLF (a ++ '\r' :: '\n' :: rest) = a :: splitCRLF rest := by
  intro a
  induction a with
  | nil =>
    intro _
    simp [splitCRLF]
  | cons c a2 ih =>
    intro hlf
    have hc : ¬ (c = '\n' ∨ c = '\r') := by
      rw [lineFree_eq_true_iff] at hlf
      exact hlf c (by simp)
    have hlf2 : lineFree a2 = true := by
      rw [lineFree_eq_true_iff] at hlf ⊢
      intro x hx
      exact hlf x (by simp [hx])
    have hcr : c ≠ '\r' := fun h => hc (Or.inr h)
    cases a2 with
    | nil =>
      show splitCRLF (c :: '\r' :: '\n' :: rest) = [c] :: splitCRLF rest
      rw [splitCRLF]
      rw [if_neg (fun h => hcr h.1)]
      rw [splitCRLF]
      rw [if_pos ⟨rfl, rfl⟩]
    | cons c2 a3 =>
      show splitCRLF (c :: c2 :: (a3 ++ '\r' :: '\n' :: rest))
        = (c :: c2 :: a3) :: splitCRLF rest
      rw [splitCRLF]
      rw [if_neg (fun h => hcr h.1)]
      rw [show c2 :: (a3 ++ '\r' :: '\n' :: rest)
        = (c2 :: a3) ++ '\r' :: '\n' :: rest from rfl]
      rw [ih hlf2]

/-- Splitting a concatenation of terminated CR/LF-free rows recovers the
rows (plus the empty tail after the final terminator). -/
theorem splitCRLF_rows :
    ∀ (bs : List Str), (∀ b ∈ bs, lineFree b = true) →
      splitCRLF ((bs.map fun b => b ++ ['\r', '\n']).flatten) = bs ++ [[]] := by
  intro bs
  induction bs with
  | nil =>
    intro _
    simp [splitCRLF]
  | cons b rest ih =>
    intro h
    simp only [List.map_cons, List.flatten_cons]
    rw [List.append_assoc]
    rw [show (['\r', '\n'] ++ (rest.map fun b => b ++ ['\r', '\n']).flatten)
      = '\r' :: '\n' :: (rest.map fun b => b ++ ['\r', '\n']).flatten from rfl]
    rw [splitCRLF_append _ b (h b (by simp))]
    rw [ih (fun x hx => h x (by simp [hx]))]
    rfl

/-- C7: for a non-empty record batch (whose metadata text fields are
single-line, as the UUID, timestamp, URL and version strings are), the
encoded stream splits on the row terminator into the header line followed by
exactly one delimited line per input record — each line the record's fields
in the fixed `model_dump()` column order with the `data` payload serialized
as a single embedded JSON column — and nothing else. -/
theorem records_to_csv_stream_structure (records : List BronzeLayerRecord)
    (hne : records ≠ [])
    (hmeta : ∀ r ∈ records,
      lineFree r.load_id = true ∧ lineFree r.extracted_at_utc = true ∧
      lineFree r.loaded_at_utc = true ∧ lineFree r.source_url = true ∧
      lineFree r.package_version = true ∧ lineFree (r.record_hash.getD []) = true) :
    splitCRLF (records_to_csv_stream records)
      = csvRowBody bronzeFieldnames ::
        (records.map fun r => csvRowBody [r.load_id, r.extracted_at_utc,
          r.loaded_at_utc, r.source_url, r.package_version,
          r.record_hash.getD [], jsonDumps r.data]) ++ [[]] ∧
    (splitCRLF (records_to_csv_stream records)).length = records.length + 2 := by
  have hbodies : ∀ b ∈ records.map fun r => csvRowBody (bronzeRowFields r),
      lineFree b = true := by
    intro b hb
    rw [List.mem_map] at hb
    obtain ⟨r, hr, rfl⟩ := hb
    obtain ⟨m1, m2, m3, m4, m5, m6⟩ := hmeta r hr
    refine csvRowBody_lineFree _ ?_
    intro f hf
    simp only [bronzeRowFields, List.mem_cons, List.not_mem_nil, or_false] at hf
    rcases hf with rfl | rfl | rfl | rfl | rfl | rfl | rfl
    · exact m1
    · exact m2
    · exact m3
    · exact m4
    · exact m5
    · exact m6
    · exact jsonDumps_lineFree r.data
  obtain ⟨r0, rs, rfl⟩ : ∃ r0 rs, records = r0 :: rs := by
    cases records with
    | nil => exact absurd rfl hne
    | cons r0 rs => exact ⟨r0, rs, rfl⟩
  have hsplit : splitCRLF (records_to_csv_stream (r0 :: rs))
      = csvRowBody bronzeFieldnames ::
        (((r0 :: rs).map fun r => csvRowBody (bronzeRowFields r)) ++ [[]]) := by
    show splitCRLF (csvRow bronzeFieldnames
        ++ ((r0 :: rs).map fun r => csvRow (bronzeRowFields r)).flatten) = _
    have hmapped : ((r0 :: rs).map fun r => csvRow (bronzeRowFields r))
        = (((r0 :: rs).map fun r => csvRowBody (bronzeRowFields r)).map
            fun b => b ++ ['\r', '\n']) := by
      rw [List.map_map]
      rfl
    rw [hmapped]
    rw [show csvRow bronzeFieldnames
      = csvRowBody bronzeFieldnames ++ ['\r', '\n'] from rfl]
    rw [List.append_assoc]
    rw [show (['\r', '\n'] ++ ((((r0 :: rs).map fun r =>
          csvRowBody (bronzeRowFields r)).map fun b => b ++ ['\r', '\n']).flatten))
      = '\r' :: '\n' :: ((((r0 :: rs).map fun r =>
          csvRowBody (bronzeRowFields r)).map fun b => b ++ ['\r', '\n']).flatten)
      from rfl]
    rw [splitCRLF_append _ (csvRowBody bronzeFieldnames) (by decide)]
    rw [splitCRLF_rows _ hbodies]
  constructor
  · rw [hsplit]
    simp [bronzeRowFields]
  · rw [hsplit]
    simp

/-- Witness for C7: one concrete record with a nested JSON payload encodes
to a stream of exactly `1 + 2` lines (header, the record's line, and the
empty tail after the final terminator). -/
theorem records_to_csv_stream_structure_witness :
    (splitCRLF (records_to_csv_stream
      [⟨"id-1".toList, "2024-01-01 00:00:00+00:00".toList,
        "2024-01-01 00:00:00+00:00".toList, "http:u".toList, "0.1.0".toList,
        none, Json.obj [("k".toList, Json.str "v,\"w\"\n".toList)]⟩])).length
      = 1 + 2 :=
  (records_to_csv_stream_structure
    [⟨"id-1".toList, "2024-01-01 00:00:00+00:00".toList,
      "2024-01-01 00:00:00+00:00".toList, "http:u".toList, "0.1.0".toList,
      none, Json.obj [("k".toList, Json.str "v,\"w\"\n".toList)]⟩]
    (by simp)
    (by
      intro r hr
      simp only [List.mem_singleton] at hr
      subst hr
      exact ⟨by decide, by decide, by decide, by decide, by decide, by decide⟩)).2

end PyLoadEuctr
